import Mathlib

/-!
# CLASP core engine: shallow embedding and verification

The repository slice contains example clients (`src/examples/python/*.py`),
a binding re-export surface (`src/bindings/python/python/signalflow/__init__.py`)
and an OSC echo test server (`src/clasp-e2e/docker/osc_echo.py`).  The engine
itself (AddressSpace, PatternMatcher, SubscriptionRegistry, SignalTypeRouter,
BundleScheduler, AuthorizationGuard) is not part of the slice; following the
specification it is modelled here from the spec's words.  The OSC echo server
is embedded directly from its source.
-/

namespace Clasp

/-! ## Addresses and patterns (spec section 3, 4.2) -/

/-- An address is a slash-delimited sequence of non-empty segments. -/
abbrev Address := List String

/-- A pattern segment: a literal, `*` (exactly one segment) or `**`
(zero or more segments). -/
inductive PSeg where
  | lit (s : String)
  | star
  | dstar
deriving DecidableEq, Repr

abbrev Pattern := List PSeg

/-- Modelled from the spec: PatternMatcher segment-wise matching.  A literal
matches only the identical literal, `*` consumes exactly one segment, `**`
consumes zero or more segments (minimal first, expanding until a match is
found or input is exhausted). -/
def matchSegs : Pattern → Address → Bool
  | [], [] => true
  | [], _ :: _ => false
  | .lit _ :: _, [] => false
  | .lit s :: ps, a :: as => s == a && matchSegs ps as
  | .star :: _, [] => false
  | .star :: ps, _ :: as => matchSegs ps as
  | .dstar :: ps, as =>
    (List.range (as.length + 1)).any (fun n => matchSegs ps (as.drop n))

/-- Split a character list at every occurrence of a separator (the string
`split` of Python and `String.splitOn` of Lean, over explicit characters). -/
def splitChar (sep : Char) : List Char → List (List Char)
  | [] => [[]]
  | c :: cs =>
    let r := splitChar sep cs
    if c = sep then [] :: r
    else
      match r with
      | [] => [[c]]
      | s :: rest => (c :: s) :: rest

/-- Split a string at every occurrence of a separator character. -/
def splitString (sep : Char) (s : String) : List String :=
  (splitChar sep s.data).map (fun cs => ⟨cs⟩)

/-- Parse a slash-delimited address string into its non-empty segments. -/
def parseAddress (s : String) : Address :=
  (splitString '/' s).filter (fun seg => seg ≠ "")

/-- Parse a pattern string: `*` and `**` become wildcards, everything else
is a literal segment. -/
def parsePattern (s : String) : Pattern :=
  (parseAddress s).map (fun seg =>
    if seg = "**" then .dstar else if seg = "*" then .star else .lit seg)

/-! ## Values and stored state (spec section 3) -/

/-- A tagged variant over number, boolean, string, ordered map, blob, null. -/
inductive Value where
  | num (n : Int)
  | bool (b : Bool)
  | str (s : String)
  | map (kvs : List (String × Value))
  | blob (bytes : List Nat)
  | null

/-- Easing kind of a timeline keyframe. -/
structure Keyframe where
  time : Nat
  value : Value
  easing : String

/-- A timeline: duration (ms), loop flag, ordered keyframes. -/
structure Timeline where
  duration : Nat
  loop : Bool
  keyframes : List Keyframe

/-- What the AddressSpace stores at an address: a Param value or a Timeline. -/
inductive Content where
  | val (v : Value)
  | tl (t : Timeline)

/-- One AddressSpace entry: current content, revision (starting at 1 on first
write), last-writer identity, last-write logical timestamp. -/
structure Entry where
  content : Content
  rev : Nat
  writer : String
  ts : Nat

/-- Modelled from the spec: `AddressSpace.get`. -/
def spaceGet : List (Address × Entry) → Address → Option Entry
  | [], _ => none
  | (b, e) :: rest, a => if b = a then some e else spaceGet rest a

/-- Revision currently stored for an address, 0 when absent. -/
def revOf (sp : List (Address × Entry)) (a : Address) : Nat :=
  match spaceGet sp a with
  | none => 0
  | some e => e.rev

/-- Modelled from the spec: `AddressSpace.set` — stores the content with a
revision exactly 1 greater than the prior stored revision for that address
(1 if absent), recording writer and logical timestamp. -/
def spaceSet : List (Address × Entry) → Address → Content → String → Nat →
    List (Address × Entry)
  | [], a, c, w, t => [(a, ⟨c, 1, w, t⟩)]
  | (b, e) :: rest, a, c, w, t =>
    if b = a then (b, ⟨c, e.rev + 1, w, t⟩) :: rest
    else (b, e) :: spaceSet rest a c w t

/-! ## Authorization (spec section 4.6) -/

/-- A capability: read, write or admin. -/
inductive Cap where
  | read
  | write
  | admin
deriving DecidableEq, Repr

/-- Modelled from the spec: `admin` on a matching pattern subsumes `read`
and `write`; a scope entry grants a needed capability when it is that
capability or admin. -/
def grants (held needed : Cap) : Bool :=
  held == needed || held == .admin

abbrev Scope := List (Cap × Pattern)

/-- Modelled from the spec: `authorize(token, capability, address)`.  The scope
list is scanned; any matching entry granting the needed capability suffices
(union semantics); absence of a token allows everything. -/
def authorize (token : Option Scope) (c : Cap) (a : Address) : Bool :=
  match token with
  | none => true
  | some scopes => scopes.any (fun sc => matchSegs sc.2 a && grants sc.1 c)

/-- Parse one `capability:pattern` scope entry. -/
def parseScopeEntry (s : String) : Cap × Pattern :=
  match splitString ':' s with
  | [c, p] =>
    (if c = "admin" then .admin else if c = "write" then .write else .read,
     parsePattern p)
  | _ => (.read, [])

/-- Parse a comma-separated `capability:pattern` scope list such as
`read:/**,write:/lights/**`. -/
def parseScopes (s : String) : Scope :=
  (splitString ',' s).map parseScopeEntry

/-! ## Errors, signal kinds, operations (spec sections 3, 6, 7) -/

/-- The error taxonomy of the spec (section 7). -/
inductive Error where
  | AUTH_REQUIRED
  | PERMISSION_DENIED
  | INVALID_ADDRESS
  | INVALID_VALUE
  | SCHEDULE_IN_PAST
  | GESTURE_SEQUENCE_ERROR
  | RATE_LIMIT_EXCEEDED
deriving DecidableEq, Repr

/-- The five signal kinds. -/
inductive SignalKind where
  | param
  | event
  | stream
  | gesture
  | timeline
deriving DecidableEq, Repr

/-- Gesture phases; `stop` models the spec's `end` phase (`end` is a Lean
keyword). -/
inductive Phase where
  | start
  | move
  | stop
deriving DecidableEq, Repr

/-- An operation of a Bundle: kind in set / emit / stream / gesture /
timeline-set, with address and value or payload. -/
inductive Operation where
  | set (address : Address) (value : Value)
  | emit (address : Address) (payload : Value)
  | streamOp (address : Address) (value : Value)
  | gestureOp (address : Address) (id : String) (phase : Phase) (payload : Value)
  | timelineSet (address : Address) (t : Timeline)

/-- The address an operation targets. -/
def Operation.address : Operation → Address
  | .set a _ => a
  | .emit a _ => a
  | .streamOp a _ => a
  | .gestureOp a _ _ _ => a
  | .timelineSet a _ => a

/-- A stored address is valid when it has at least one segment, every segment
is non-empty, and no segment is a wildcard (spec: INVALID_ADDRESS on a
malformed segment or a disallowed wildcard in a stored address). -/
def validAddress (a : Address) : Bool :=
  !a.isEmpty && a.all (fun seg => seg ≠ "" && seg ≠ "*" && seg ≠ "**")

/-- Keyframe times must be monotonically non-decreasing (spec data-model
invariant); other values carry no kind-specific constraint in the spec. -/
def validTimeline (t : Timeline) : Bool :=
  List.Chain' (fun k1 k2 => k1.time ≤ k2.time) t.keyframes

/-- Value validity for the target signal kind (INVALID_VALUE). -/
def validValue : Operation → Bool
  | .timelineSet _ t => validTimeline t
  | _ => true

/-! ## Server state (spec sections 3, 4.3, 4.5) -/

/-- A subscription: pattern, owning session id, optional signal-type filter. -/
structure Subscription where
  sid : Nat
  pattern : Pattern
  filter : Option SignalKind

/-- One delivery to a subscriber: session id, address, content, the revision
when the signal kind persists, and the signal kind. -/
structure Delivery where
  sid : Nat
  address : Address
  content : Content
  rev : Option Nat
  kind : SignalKind

/-- A pending scheduled bundle: execution time, arrival sequence number,
submitting session's token and identity, and the operations. -/
structure ScheduledBundle where
  time : Nat
  seq : Nat
  token : Option Scope
  writer : String
  ops : List Operation

/-- Modelled from the spec: the engine state — logical clock, AddressSpace,
subscription registry, the outbound delivery log (in delivery order), open
gesture (address, id) pairs, the time-ordered pending-bundle queue, the next
arrival sequence number and the log of applied bundle sequence numbers. -/
structure ServerState where
  clock : Nat
  space : List (Address × Entry)
  subs : List Subscription
  deliveries : List Delivery
  openGestures : List (Address × String)
  pending : List ScheduledBundle
  nextSeq : Nat
  appliedLog : List Nat

/-- Modelled from the spec: `SubscriptionRegistry.publish` fans a change out
to every subscription whose pattern matches and whose type filter (if set)
accepts the signal kind. -/
def publish (subs : List Subscription) (a : Address) (c : Content)
    (rev : Option Nat) (k : SignalKind) : List Delivery :=
  subs.filterMap (fun sub =>
    if matchSegs sub.pattern a &&
        (match sub.filter with | none => true | some f => f == k) then
      some ⟨sub.sid, a, c, rev, k⟩
    else none)

/-! ## Router validation and application (spec sections 4.4, 4.5) -/

/-- Modelled from the spec: validation of one operation against the current
gesture phase table — bad address, bad value, permission denied, or a gesture
phase violating the start / move / end ordering. -/
def validateOp (g : List (Address × String)) (token : Option Scope)
    (op : Operation) : Option Error :=
  if !validAddress op.address then some .INVALID_ADDRESS
    else if !authorize token .write op.address then some .PERMISSION_DENIED
    else if !validValue op then some .INVALID_VALUE
    else match op with
      | .gestureOp a id ph _ =>
        match ph with
        | .start => if (a, id) ∈ g then some .GESTURE_SEQUENCE_ERROR else none
        | .move => if (a, id) ∈ g then none else some .GESTURE_SEQUENCE_ERROR
        | .stop => if (a, id) ∈ g then none else some .GESTURE_SEQUENCE_ERROR
      | _ => none

/-- How one operation changes the gesture phase table (used both when
simulating during the validation pass and when applying). -/
def gestureStep (g : List (Address × String)) : Operation →
    List (Address × String)
  | .gestureOp a id .start _ => (a, id) :: g
  | .gestureOp a id .stop _ => g.filter (fun k => k ≠ (a, id))
  | _ => g

/-- Modelled from the spec: the bundle validation pass — a first pass over the
whole bundle before any mutation, threading the simulated gesture table, that
reports the first failing operation's error. -/
def validateOps (g : List (Address × String)) (token : Option Scope) :
    List Operation → Option Error
  | [] => none
  | op :: ops =>
    match validateOp g token op with
    | some e => some e
    | none => validateOps (gestureStep g op) token ops

/-- Modelled from the spec: applying one (already validated) operation.
Param and Timeline mutate the AddressSpace then publish with the new
revision; Event and Stream publish directly; Gesture updates the phase table
and publishes. -/
def applyOp (s : ServerState) (w : String) : Operation → ServerState
  | .set a v =>
    let r := revOf s.space a + 1
    { s with
      space := spaceSet s.space a (.val v) w s.clock
      deliveries := s.deliveries ++ publish s.subs a (.val v) (some r) .param }
  | .emit a p =>
    { s with deliveries := s.deliveries ++ publish s.subs a (.val p) none .event }
  | .streamOp a v =>
    { s with deliveries := s.deliveries ++ publish s.subs a (.val v) none .stream }
  | .gestureOp a id ph p =>
    { s with
      openGestures := gestureStep s.openGestures (.gestureOp a id ph p)
      deliveries := s.deliveries ++ publish s.subs a (.val p) none .gesture }
  | .timelineSet a t =>
    let r := revOf s.space a + 1
    { s with
      space := spaceSet s.space a (.tl t) w s.clock
      deliveries := s.deliveries ++ publish s.subs a (.tl t) (some r) .timeline }

/-- Apply a list of operations in order (no interleaving: one atomic step). -/
def applyOps (s : ServerState) (w : String) (ops : List Operation) : ServerState :=
  ops.foldl (fun st op => applyOp st w op) s

/-- Modelled from the spec: atomic bundle execution — validate every operation
first; if any fails, reject the whole bundle and mutate nothing; otherwise
apply all operations in listed order. -/
def attemptBundle (s : ServerState) (token : Option Scope) (w : String)
    (ops : List Operation) : ServerState × Option Error :=
  match validateOps s.openGestures token ops with
  | some e => (s, some e)
  | none => (applyOps s w ops, none)

/-- Modelled from the spec: direct (non-bundled) gesture handling by the
SignalTypeRouter — one gesture command validated and applied. -/
def handleGesture (s : ServerState) (token : Option Scope) (w : String)
    (a : Address) (id : String) (ph : Phase) (p : Value) :
    ServerState × Option Error :=
  attemptBundle s token w [.gestureOp a id ph p]

/-! ## Bundle scheduling (spec section 4.5) -/

/-- Strict scheduling order on pending bundles: earlier execution time first,
ties broken by arrival sequence (FIFO among equal timestamps). -/
def schedBefore (x y : ScheduledBundle) : Prop :=
  x.time < y.time ∨ (x.time = y.time ∧ x.seq < y.seq)

instance : DecidableRel schedBefore :=
  fun _ _ => by unfold schedBefore; infer_instance

/-- Insert a bundle into the time-ordered queue, after every entry that
schedules no later than it (so equal timestamps keep arrival order). -/
def insertPending (sb : ScheduledBundle) :
    List ScheduledBundle → List ScheduledBundle
  | [] => [sb]
  | x :: rest =>
    if sb.time < x.time then sb :: x :: rest
    else x :: insertPending sb rest

/-- Modelled from the spec: `bundle(operations, at?)`.  No time: execute
immediately and atomically.  A time before the current logical clock:
reject with SCHEDULE_IN_PAST, applying nothing.  Otherwise enqueue
time-ordered, FIFO among equal timestamps. -/
def submitBundle (s : ServerState) (token : Option Scope) (w : String)
    (ops : List Operation) (at? : Option Nat) : ServerState × Option Error :=
  match at? with
  | none => attemptBundle s token w ops
  | some t =>
    if t < s.clock then (s, some .SCHEDULE_IN_PAST)
    else
      ({ s with
          pending := insertPending ⟨t, s.nextSeq, token, w, ops⟩ s.pending
          nextSeq := s.nextSeq + 1 }, none)

/-- Run a list of due bundles in order: each is validated and applied
atomically; a bundle whose validation now fails is rejected alone and
processing continues; every execution attempt is logged. -/
def runScheduled (s : ServerState) : List ScheduledBundle → ServerState
  | [] => s
  | sb :: rest =>
    let s1 := (attemptBundle s sb.token sb.writer sb.ops).1
    runScheduled { s1 with appliedLog := s1.appliedLog ++ [sb.seq] } rest

/-- Modelled from the spec: the scheduling loop advancing the logical clock to
`t` — pops and applies all due bundles at or before `t`, in timestamp order,
FIFO within a timestamp. -/
def advanceTo (t : Nat) (s : ServerState) : ServerState :=
  let due := s.pending.takeWhile (fun sb => sb.time ≤ t)
  let rest := s.pending.dropWhile (fun sb => sb.time ≤ t)
  runScheduled { s with clock := t, pending := rest } due

/-! ## Subscription with late-joiner snapshot (spec section 4.3) -/

/-- The signal kind of a stored content (Param or Timeline). -/
def Content.kind : Content → SignalKind
  | .val _ => .param
  | .tl _ => .timeline

/-- Modelled from the spec: the initial sync batch delivered on subscribe —
every stored entry whose address matches the pattern, tagged with its
revision. -/
def snapshotBatch (sp : List (Address × Entry)) (sid : Nat) (p : Pattern) :
    List Delivery :=
  sp.filterMap (fun ae =>
    if matchSegs p ae.1 then
      some ⟨sid, ae.1, ae.2.content, some ae.2.rev, ae.2.content.kind⟩
    else none)

/-- Modelled from the spec: `subscribe(pattern, filter?)` — registers the
subscription and immediately delivers the snapshot batch, before any
subsequent live update. -/
def subscribe (s : ServerState) (sid : Nat) (p : Pattern)
    (filter : Option SignalKind) : ServerState :=
  { s with
    subs := s.subs ++ [⟨sid, p, filter⟩]
    deliveries := s.deliveries ++ snapshotBatch s.space sid p }

/-! ## Per-subscription stream rate limiting (spec section 4.3) -/

/-- Modelled from the spec: per-subscription max-rate enforcement with the
drop policy — given the minimum delivery interval and the last delivery time,
each timestamped sample is delivered when the cadence allows and otherwise
discarded (reported, never queued).  Returns (delivered, dropped). -/
def rateDeliver (minInterval : Nat) :
    Option Nat → List (Nat × Value) → List (Nat × Value) × List (Nat × Value)
  | _, [] => ([], [])
  | last, (t, v) :: rest =>
    let ok := match last with
      | none => true
      | some l => decide (l + minInterval ≤ t)
    if ok then
      let r := rateDeliver minInterval (some t) rest
      ((t, v) :: r.1, r.2)
    else
      let r := rateDeliver minInterval last rest
      (r.1, (t, v) :: r.2)

/-! ## Derived helper definitions used by the statements -/

/-- `set` applied repeatedly to one address: each element of the list is the
content, writer and logical timestamp of one consecutive set. -/
def setMany (sp : List (Address × Entry)) (a : Address)
    (vs : List (Content × String × Nat)) : List (Address × Entry) :=
  vs.foldl (fun s cwt => spaceSet s a cwt.1 cwt.2.1 cwt.2.2) sp

/-- The gesture phase table after simulating a prefix of a bundle's
operations (as the validation pass does). -/
def simGestures (g : List (Address × String)) (ops : List Operation) :
    List (Address × String) :=
  ops.foldl gestureStep g

/-- Run a sequence of gesture commands for one (address, id), stopping at the
first rejected phase. -/
def runPhases (s : ServerState) (token : Option Scope) (w : String)
    (a : Address) (id : String) :
    List (Phase × Value) → ServerState × Option Error
  | [] => (s, none)
  | (ph, v) :: rest =>
    match handleGesture s token w a id ph v with
    | (s1, none) => runPhases s1 token w a id rest
    | (s1, some e) => (s1, some e)

/-! ## OSC echo server, embedded from `src/clasp-e2e/docker/osc_echo.py` -/

/-- The characters Python `int()` strips from both ends of its argument
(CPython's Unicode whitespace: 0x09-0x0D, space, NEL, NBSP, Ogham space mark,
the 0x2000-0x200A spaces, line and paragraph separators, narrow no-break
space, medium mathematical space and ideographic space). -/
def pyIsSpace (c : Char) : Bool :=
  let n := c.toNat
  (0x09 ≤ n && n ≤ 0x0D) || n == 0x20 || n == 0x85 || n == 0xA0 ||
  n == 0x1680 || (0x2000 ≤ n && n ≤ 0x200A) || n == 0x2028 || n == 0x2029 ||
  n == 0x202F || n == 0x205F || n == 0x3000

/-- Strip Python's whitespace from both ends of a character list. -/
def pyTrim (cs : List Char) : List Char :=
  ((cs.dropWhile pyIsSpace).reverse.dropWhile pyIsSpace).reverse

/-- Start codepoints of the runs of ten consecutive Unicode decimal digits
(general category Nd, digit values 0 through 9 in order) that Python `int()`
accepts; the fifty mathematical digits at 0x1D7CE appear as five runs. -/
def ndDigitStarts : List Nat :=
  [0x30, 0x660, 0x6F0, 0x7C0, 0x966, 0x9E6, 0xA66, 0xAE6, 0xB66, 0xBE6,
   0xC66, 0xCE6, 0xD66, 0xDE6, 0xE50, 0xED0, 0xF20, 0x1040, 0x1090, 0x17E0,
   0x1810, 0x1946, 0x19D0, 0x1A80, 0x1A90, 0x1B50, 0x1BB0, 0x1C40, 0x1C50,
   0xA620, 0xA8D0, 0xA900, 0xA9D0, 0xA9F0, 0xAA50, 0xABF0, 0xFF10, 0x104A0,
   0x10D30, 0x11066, 0x110F0, 0x11136, 0x111D0, 0x112F0, 0x11450, 0x114D0,
   0x11650, 0x116C0, 0x11730, 0x118E0, 0x11950, 0x11C50, 0x11D50, 0x11DA0,
   0x16A60, 0x16AC0, 0x16B50, 0x1D7CE, 0x1D7D8, 0x1D7E2, 0x1D7EC, 0x1D7F6,
   0x1E140, 0x1E2F0, 0x1E950, 0x1FBF0]

/-- The decimal value of a Unicode digit as Python `int()` reads it:
its offset inside an Nd run, `none` for a non-digit. -/
def pyUnicodeDigit (c : Char) : Option Nat :=
  match ndDigitStarts.find? (fun s => s ≤ c.toNat && c.toNat < s + 10) with
  | some s => some (c.toNat - s)
  | none => none

/-- Digits after the first: Unicode decimal digits with single underscores
allowed only between digits (PEP 515), accumulating the base-10 value. -/
def pyDigitsGo (acc : Nat) : List Char → Option Nat
  | [] => some acc
  | c :: rest =>
    if c = '_' then
      match rest with
      | c' :: rest' =>
        match pyUnicodeDigit c' with
        | some d => pyDigitsGo (acc * 10 + d) rest'
        | none => none
      | [] => none
    else
      match pyUnicodeDigit c with
      | some d => pyDigitsGo (acc * 10 + d) rest
      | none => none

/-- A non-empty digit group: a digit, then digits with grouping underscores. -/
def pyDigits (cs : List Char) : Option Nat :=
  match cs with
  | [] => none
  | c :: rest =>
    match pyUnicodeDigit c with
    | some d => pyDigitsGo d rest
    | none => none

/-- Models Python `int()` on a base-10 string: Python's whitespace stripped
from both ends, one optional sign, then at least one Unicode decimal digit
with single underscores allowed between digits; `none` when `int()` would
raise ValueError. -/
def pyInt (s : String) : Option Int :=
  match pyTrim s.data with
  | '-' :: rest => (pyDigits rest).map (fun n => -(n : Int))
  | '+' :: rest => (pyDigits rest).map (fun n => (n : Int))
  | cs => (pyDigits cs).map (fun n => (n : Int))

/-- The reply the echo server sends: target host and port, reply address,
echoed argument list. -/
structure OscReply where
  targetHost : String
  targetPort : Int
  address : String
  args : List String
deriving DecidableEq, Repr

/-- `echo_handler` from `osc_echo.py`: with a known sender address, reply to
the sender's IP; the port is 9000 unless the message is `/ping` whose first
argument splits on `:` into exactly two parts with an integral second part
(a failing `int()` is caught and falls back to 9000); the reply address is
`/pong` for `/ping` and the incoming address with `/echo` appended otherwise;
the argument list is echoed unchanged.  OSC arguments are modelled as their
`str()` images. -/
def echo_handler (clientAddress : Option (String × Nat)) (address : String)
    (args : List String) : Option OscReply :=
  match clientAddress with
  | none => none
  | some (senderIp, _) =>
    let senderPort : Int :=
      if address == "/ping" && !args.isEmpty then
        match splitString ':' (args.headD "") with
        | [_, p] =>
          match pyInt p with
          | some n => n
          | none => 9000
        | _ => 9000
      else 9000
    let replyAddress := if address == "/ping" then "/pong" else address ++ "/echo"
    some ⟨senderIp, senderPort, replyAddress, args⟩

/-! ## AddressSpace lemmas -/

theorem spaceGet_spaceSet_self (sp : List (Address × Entry)) (a : Address)
    (c : Content) (w : String) (t : Nat) :
    spaceGet (spaceSet sp a c w t) a = some ⟨c, revOf sp a + 1, w, t⟩ := by
  induction sp with
  | nil => simp [spaceSet, spaceGet, revOf]
  | cons hd tl ih =>
    obtain ⟨b, e⟩ := hd
    by_cases h : b = a
    · subst h
      simp [spaceSet, spaceGet, revOf]
    · simp [spaceSet, spaceGet, revOf, h] at ih ⊢
      exact ih

theorem revOf_spaceSet (sp : List (Address × Entry)) (a : Address)
    (c : Content) (w : String) (t : Nat) :
    revOf (spaceSet sp a c w t) a = revOf sp a + 1 := by
  simp [revOf, spaceGet_spaceSet_self]

theorem setMany_append_get (a : Address) (vs : List (Content × String × Nat))
    (sp : List (Address × Entry)) (c : Content) (w : String) (t : Nat) :
    spaceGet (setMany sp a (vs ++ [(c, w, t)])) a =
      some ⟨c, revOf sp a + vs.length + 1, w, t⟩ := by
  induction vs generalizing sp with
  | nil => simpa [setMany] using spaceGet_spaceSet_self sp a c w t
  | cons v vs ih =>
    obtain ⟨c0, w0, t0⟩ := v
    have h := ih (spaceSet sp a c0 w0 t0)
    rw [revOf_spaceSet] at h
    simp only [setMany, List.cons_append, List.foldl_cons] at h ⊢
    rw [h]
    congr 2
    simp only [List.length_cons]
    omega

/-- C2: for every address A, each `set(A, v)` returns a revision exactly 1
greater than the prior stored revision for A (starting at 1 when A is
absent), and after N consecutive sets on an initially absent A, `get(A)`
returns the Nth value with stored revision N — so revisions per address are
strictly increasing and gap-free. -/
theorem set_revision_contract :
    (∀ (sp : List (Address × Entry)) (a : Address) (c : Content) (w : String)
      (t : Nat), revOf (spaceSet sp a c w t) a = revOf sp a + 1) ∧
    (∀ (sp : List (Address × Entry)) (a : Address) (c : Content) (w : String)
      (t : Nat), spaceGet (spaceSet sp a c w t) a =
        some ⟨c, revOf sp a + 1, w, t⟩) ∧
    (∀ (sp : List (Address × Entry)) (a : Address)
      (vs : List (Content × String × Nat)) (c : Content) (w : String) (t : Nat),
      spaceGet sp a = none →
      spaceGet (setMany sp a (vs ++ [(c, w, t)])) a =
        some ⟨c, vs.length + 1, w, t⟩) := by
  refine ⟨revOf_spaceSet, spaceGet_spaceSet_self, ?_⟩
  intro sp a vs c w t h
  have := setMany_append_get a vs sp c w t
  rwa [show revOf sp a = 0 by simp [revOf, h], Nat.zero_add] at this

/-- Witness for C2: two consecutive sets on a fresh address store the second
value at revision 2. -/
theorem set_revision_contract_witness :
    spaceGet ([] : List (Address × Entry)) ["x"] = none ∧
    spaceGet (setMany [] ["x"]
        ([(.val (.num 1), "w", 0)] ++ [(.val (.num 2), "w", 1)])) ["x"] =
      some ⟨.val (.num 2), 2, "w", 1⟩ :=
  ⟨rfl, set_revision_contract.2.2 [] ["x"] [(.val (.num 1), "w", 0)]
    (.val (.num 2)) "w" 1 rfl⟩

/-! ## PatternMatcher lemmas -/

theorem matchSegs_dstar_iff (ps : Pattern) (as : Address) :
    matchSegs (.dstar :: ps) as = true ↔
      ∃ n, matchSegs ps (as.drop n) = true := by
  rw [matchSegs]
  simp only [List.any_eq_true, List.mem_range]
  constructor
  · rintro ⟨n, _, h⟩
    exact ⟨n, h⟩
  · rintro ⟨n, h⟩
    by_cases hn : n < as.length + 1
    · exact ⟨n, hn, h⟩
    · refine ⟨as.length, by omega, ?_⟩
      rw [List.drop_length]
      rwa [List.drop_eq_nil_of_le (by omega)] at h

/-- C3: pattern matching is a total boolean function in which a literal
segment matches only the identical literal, `*` consumes exactly one
segment, and `**` consumes zero or more segments; in particular `/a/**`
matches `/a`, `/a/b`, `/a/b/c`, and `/a/**/z` matches `/a/z`, `/a/b/z`,
`/a/b/c/z`. -/
theorem pattern_match_semantics :
    (∀ (s a : String) (ps : Pattern) (as : Address),
      matchSegs (.lit s :: ps) (a :: as) = (s == a && matchSegs ps as)) ∧
    (∀ (s : String) (ps : Pattern), matchSegs (.lit s :: ps) [] = false) ∧
    (∀ (ps : Pattern) (a : String) (as : Address),
      matchSegs (.star :: ps) (a :: as) = matchSegs ps as) ∧
    (∀ ps : Pattern, matchSegs (.star :: ps) [] = false) ∧
    (∀ (ps : Pattern) (as : Address),
      matchSegs (.dstar :: ps) as = true ↔
        ∃ n, matchSegs ps (as.drop n) = true) ∧
    (matchSegs (parsePattern "/a/**") (parseAddress "/a") = true ∧
     matchSegs (parsePattern "/a/**") (parseAddress "/a/b") = true ∧
     matchSegs (parsePattern "/a/**") (parseAddress "/a/b/c") = true) ∧
    (matchSegs (parsePattern "/a/**/z") (parseAddress "/a/z") = true ∧
     matchSegs (parsePattern "/a/**/z") (parseAddress "/a/b/z") = true ∧
     matchSegs (parsePattern "/a/**/z") (parseAddress "/a/b/c/z") = true) :=
  ⟨fun _ _ _ _ => rfl, fun _ _ => rfl, fun _ _ _ => rfl, fun _ => rfl,
   matchSegs_dstar_iff,
   ⟨by decide, by decide, by decide⟩, ⟨by decide, by decide, by decide⟩⟩

/-- Witness for C3: the `**` characterization applied at a concrete pattern
and address. -/
theorem pattern_match_semantics_witness :
    matchSegs [.dstar, .lit "z"] ["b", "z"] = true ↔
      ∃ n, matchSegs [PSeg.lit "z"] (["b", "z"].drop n) = true :=
  pattern_match_semantics.2.2.2.2.1 [.lit "z"] ["b", "z"]

/-! ## AuthorizationGuard -/

/-- C7: authorize allows an operation iff some scope entry both matches the
address and grants the needed capability (union semantics), `admin` subsumes
`read` and `write`, and absence of a token allows everything; the token
`read:/**,write:/lights/**` permits set on `/lights/1/brightness` and denies
set on `/audio/master/volume` with PERMISSION_DENIED, while an admin-scoped
token permits both. -/
theorem authorize_union_semantics :
    (∀ (scopes : Scope) (c : Cap) (a : Address),
      authorize (some scopes) c a = true ↔
        ∃ sc ∈ scopes, matchSegs sc.2 a = true ∧ grants sc.1 c = true) ∧
    (∀ c : Cap, grants .admin c = true) ∧
    (∀ (c : Cap) (a : Address), authorize none c a = true) ∧
    (authorize (some (parseScopes "read:/**,write:/lights/**")) .write
      (parseAddress "/lights/1/brightness") = true) ∧
    (authorize (some (parseScopes "read:/**,write:/lights/**")) .write
      (parseAddress "/audio/master/volume") = false) ∧
    (validateOp [] (some (parseScopes "read:/**,write:/lights/**"))
      (.set (parseAddress "/audio/master/volume") (.num 0)) =
        some .PERMISSION_DENIED) ∧
    (validateOp [] (some (parseScopes "read:/**,write:/lights/**"))
      (.set (parseAddress "/lights/1/brightness") (.num 0)) = none) ∧
    (authorize (some (parseScopes "admin:/**")) .write
      (parseAddress "/lights/1/brightness") = true) ∧
    (authorize (some (parseScopes "admin:/**")) .write
      (parseAddress "/audio/master/volume") = true) := by
  refine ⟨?_, ?_, fun _ _ => rfl, by decide, by decide, by decide, by decide,
    by decide, by decide⟩
  · intro scopes c a
    simp [authorize, List.any_eq_true, Bool.and_eq_true]
  · intro c
    cases c <;> rfl

/-- Witness for C7: the union-semantics characterization applied at the
example scope, capability and address. -/
theorem authorize_union_semantics_witness :
    authorize (some [(.write, [.lit "lights", .dstar])]) .write
        ["lights", "1"] = true ↔
      ∃ sc ∈ [((Cap.write), [PSeg.lit "lights", PSeg.dstar])],
        matchSegs sc.2 ["lights", "1"] = true ∧ grants sc.1 .write = true :=
  authorize_union_semantics.1 [(.write, [.lit "lights", .dstar])] .write
    ["lights", "1"]

/-! ## OSC echo server behaviour -/

/-- C10: with a known sender address the echo server replies to the sender
with the same argument list, at `/pong` when the incoming address is `/ping`
and at the incoming address with `/echo` appended otherwise; the reply port
is 9000 unless the message is `/ping` whose first argument parses as
`host:port`, in which case that port is used, and a malformed first argument
falls back to 9000. -/
theorem echo_handler_reply :
    (∀ addr args, echo_handler none addr args = none) ∧
    (∀ ip p0 addr args, addr ≠ "/ping" →
      echo_handler (some (ip, p0)) addr args =
        some ⟨ip, 9000, addr ++ "/echo", args⟩) ∧
    (∀ ip p0, echo_handler (some (ip, p0)) "/ping" [] =
      some ⟨ip, 9000, "/pong", []⟩) ∧
    (∀ ip p0 a args h pstr n, splitString ':' a = [h, pstr] →
      pyInt pstr = some n →
      echo_handler (some (ip, p0)) "/ping" (a :: args) =
        some ⟨ip, n, "/pong", a :: args⟩) ∧
    (∀ ip p0 a args,
      (match splitString ':' a with
       | [_, pstr] => pyInt pstr = none
       | _ => True) →
      echo_handler (some (ip, p0)) "/ping" (a :: args) =
        some ⟨ip, 9000, "/pong", a :: args⟩) := by
  refine ⟨fun _ _ => rfl, ?_, fun _ _ => rfl, ?_, ?_⟩
  · intro ip p0 addr args h
    simp [echo_handler, h]
  · intro ip p0 a args h pstr n hsplit hint
    simp [echo_handler, hsplit, hint]
  · intro ip p0 a args hm
    cases hs : splitString ':' a with
    | nil => simp [echo_handler, hs]
    | cons x xs =>
      cases xs with
      | nil => simp [echo_handler, hs]
      | cons y ys =>
        cases ys with
        | nil =>
          rw [hs] at hm
          simp [echo_handler, hs, hm]
        | cons z zs => simp [echo_handler, hs]

/-- Witness for C10: a `/ping` carrying `host:9_001` (Python digit grouping)
is answered at `/pong` on port 9001 with the argument echoed; `pyInt` also
accepts Arabic-Indic digits and vertical-tab padding and rejects misplaced
underscores, as Python `int()` does. -/
theorem echo_handler_reply_witness :
    splitString ':' "host:9_001" = ["host", "9_001"] ∧
    pyInt "9_001" = some 9001 ∧
    pyInt "\u0669\u0661" = some 91 ∧
    pyInt "\u000B10\u3000" = some 10 ∧
    pyInt "1__2" = none ∧
    pyInt "_1" = none ∧
    pyInt "1_" = none ∧
    echo_handler (some ("10.0.0.5", 4444)) "/ping" ["host:9_001"] =
      some ⟨"10.0.0.5", 9001, "/pong", ["host:9_001"]⟩ :=
  ⟨by decide, by decide, by decide, by decide, by decide, by decide, by decide,
   echo_handler_reply.2.2.2.1 "10.0.0.5" 4444 "host:9_001" [] "host" "9_001"
     9001 (by decide) (by decide)⟩

/-! ## Gesture phase protocol -/

theorem handleGesture_start_of_not_mem (s : ServerState) (token : Option Scope)
    (w : String) (a : Address) (id : String) (v : Value)
    (hva : validAddress a = true) (hau : authorize token .write a = true)
    (h : (a, id) ∉ s.openGestures) :
    handleGesture s token w a id .start v =
      (applyOp s w (.gestureOp a id .start v), none) := by
  simp [handleGesture, attemptBundle, validateOps, validateOp, Operation.address,
    validValue, applyOps, hva, hau, h]

theorem handleGesture_start_of_mem (s : ServerState) (token : Option Scope)
    (w : String) (a : Address) (id : String) (v : Value)
    (hva : validAddress a = true) (hau : authorize token .write a = true)
    (h : (a, id) ∈ s.openGestures) :
    handleGesture s token w a id .start v = (s, some .GESTURE_SEQUENCE_ERROR) := by
  simp [handleGesture, attemptBundle, validateOps, validateOp, Operation.address,
    validValue, hva, hau, h]

theorem handleGesture_move_of_mem (s : ServerState) (token : Option Scope)
    (w : String) (a : Address) (id : String) (v : Value)
    (hva : validAddress a = true) (hau : authorize token .write a = true)
    (h : (a, id) ∈ s.openGestures) :
    handleGesture s token w a id .move v =
      (applyOp s w (.gestureOp a id .move v), none) := by
  simp [handleGesture, attemptBundle, validateOps, validateOp, Operation.address,
    validValue, applyOps, hva, hau, h]

theorem handleGesture_move_of_not_mem (s : ServerState) (token : Option Scope)
    (w : String) (a : Address) (id : String) (v : Value)
    (hva : validAddress a = true) (hau : authorize token .write a = true)
    (h : (a, id) ∉ s.openGestures) :
    handleGesture s token w a id .move v = (s, some .GESTURE_SEQUENCE_ERROR) := by
  simp [handleGesture, attemptBundle, validateOps, validateOp, Operation.address,
    validValue, hva, hau, h]

theorem handleGesture_stop_of_mem (s : ServerState) (token : Option Scope)
    (w : String) (a : Address) (id : String) (v : Value)
    (hva : validAddress a = true) (hau : authorize token .write a = true)
    (h : (a, id) ∈ s.openGestures) :
    handleGesture s token w a id .stop v =
      (applyOp s w (.gestureOp a id .stop v), none) := by
  simp [handleGesture, attemptBundle, validateOps, validateOp, Operation.address,
    validValue, applyOps, hva, hau, h]

theorem handleGesture_stop_of_not_mem (s : ServerState) (token : Option Scope)
    (w : String) (a : Address) (id : String) (v : Value)
    (hva : validAddress a = true) (hau : authorize token .write a = true)
    (h : (a, id) ∉ s.openGestures) :
    handleGesture s token w a id .stop v = (s, some .GESTURE_SEQUENCE_ERROR) := by
  simp [handleGesture, attemptBundle, validateOps, validateOp, Operation.address,
    validValue, hva, hau, h]

theorem applyOp_gesture_start_openGestures (s : ServerState) (w : String)
    (a : Address) (id : String) (v : Value) :
    (applyOp s w (.gestureOp a id .start v)).openGestures =
      (a, id) :: s.openGestures := rfl

theorem applyOp_gesture_move_openGestures (s : ServerState) (w : String)
    (a : Address) (id : String) (v : Value) :
    (applyOp s w (.gestureOp a id .move v)).openGestures = s.openGestures := rfl

theorem applyOp_gesture_stop_openGestures (s : ServerState) (w : String)
    (a : Address) (id : String) (v : Value) :
    (applyOp s w (.gestureOp a id .stop v)).openGestures =
      s.openGestures.filter (fun k => k ≠ (a, id)) := rfl

theorem not_mem_filter_ne_self (a : Address) (id : String)
    (g : List (Address × String)) :
    (a, id) ∉ g.filter (fun k => k ≠ (a, id)) := by
  intro h
  have := List.of_mem_filter h
  simp at this

theorem runPhases_moves (s : ServerState) (token : Option Scope) (w : String)
    (a : Address) (id : String) (hva : validAddress a = true)
    (hau : authorize token .write a = true) (mvs : List Value)
    (hmem : (a, id) ∈ s.openGestures) :
    ∃ s1, runPhases s token w a id (mvs.map (fun m => (Phase.move, m))) =
        (s1, none) ∧ (a, id) ∈ s1.openGestures := by
  induction mvs generalizing s with
  | nil => exact ⟨s, rfl, hmem⟩
  | cons m mvs ih =>
    have hstep := handleGesture_move_of_mem s token w a id m hva hau hmem
    have hmem1 : (a, id) ∈ (applyOp s w (.gestureOp a id .move m)).openGestures := by
      rwa [applyOp_gesture_move_openGestures]
    obtain ⟨s1, hrun, hmem2⟩ := ih _ hmem1
    refine ⟨s1, ?_, hmem2⟩
    simp only [List.map_cons, runPhases, hstep, hrun]

theorem runPhases_append (s : ServerState) (token : Option Scope) (w : String)
    (a : Address) (id : String) (l1 l2 : List (Phase × Value)) :
    (runPhases s token w a id l1).2 = none →
    runPhases s token w a id (l1 ++ l2) =
      runPhases (runPhases s token w a id l1).1 token w a id l2 := by
  induction l1 generalizing s with
  | nil => intro _; rfl
  | cons pv l1 ih =>
    intro h
    obtain ⟨ph, v'⟩ := pv
    simp only [runPhases, List.cons_append] at h ⊢
    cases hg : handleGesture s token w a id ph v' with
    | mk s1 err =>
      cases err with
      | none =>
        rw [hg] at h
        simp only at h ⊢
        exact ih _ h
      | some e =>
        rw [hg] at h
        simp at h

/-- C8: for every (address, gesture id) the router accepts start, then zero
or more moves, then end; it rejects with GESTURE_SEQUENCE_ERROR any move or
end whose id is not open (unknown or already ended), any second end for an
already-ended id, and any start for an already-open id. -/
theorem gesture_phase_protocol (s : ServerState) (token : Option Scope)
    (w : String) (a : Address) (id : String) (v : Value)
    (hva : validAddress a = true) (hau : authorize token .write a = true) :
    ((handleGesture s token w a id .start v).2 = none ↔
      (a, id) ∉ s.openGestures) ∧
    ((handleGesture s token w a id .move v).2 = none ↔
      (a, id) ∈ s.openGestures) ∧
    ((handleGesture s token w a id .stop v).2 = none ↔
      (a, id) ∈ s.openGestures) ∧
    ((a, id) ∉ s.openGestures →
      handleGesture s token w a id .move v = (s, some .GESTURE_SEQUENCE_ERROR)) ∧
    ((a, id) ∉ s.openGestures →
      handleGesture s token w a id .stop v = (s, some .GESTURE_SEQUENCE_ERROR)) ∧
    ((a, id) ∈ s.openGestures →
      handleGesture s token w a id .start v = (s, some .GESTURE_SEQUENCE_ERROR)) ∧
    ((a, id) ∈ s.openGestures →
      (handleGesture (handleGesture s token w a id .stop v).1 token w a id
        .stop v).2 = some .GESTURE_SEQUENCE_ERROR) ∧
    ((a, id) ∉ s.openGestures → ∀ (mvs : List Value) (v0 v1 : Value),
      (runPhases s token w a id
        ((Phase.start, v0) :: (mvs.map (fun m => (Phase.move, m)) ++
          [(Phase.stop, v1)]))).2 = none) := by
  refine ⟨?_, ?_, ?_, ?_, ?_, ?_, ?_, ?_⟩
  · constructor
    · intro h hmem
      rw [handleGesture_start_of_mem s token w a id v hva hau hmem] at h
      simp at h
    · intro h
      rw [handleGesture_start_of_not_mem s token w a id v hva hau h]
  · constructor
    · intro h
      by_contra hmem
      rw [handleGesture_move_of_not_mem s token w a id v hva hau hmem] at h
      simp at h
    · intro h
      rw [handleGesture_move_of_mem s token w a id v hva hau h]
  · constructor
    · intro h
      by_contra hmem
      rw [handleGesture_stop_of_not_mem s token w a id v hva hau hmem] at h
      simp at h
    · intro h
      rw [handleGesture_stop_of_mem s token w a id v hva hau h]
  · exact fun h => handleGesture_move_of_not_mem s token w a id v hva hau h
  · exact fun h => handleGesture_stop_of_not_mem s token w a id v hva hau h
  · exact fun h => handleGesture_start_of_mem s token w a id v hva hau h
  · intro hmem
    rw [handleGesture_stop_of_mem s token w a id v hva hau hmem]
    have hnot : (a, id) ∉ (applyOp s w (.gestureOp a id .stop v)).openGestures := by
      rw [applyOp_gesture_stop_openGestures]
      exact not_mem_filter_ne_self a id _
    rw [handleGesture_stop_of_not_mem _ token w a id v hva hau hnot]
  · intro hmem mvs v0 v1
    have hstart := handleGesture_start_of_not_mem s token w a id v0 hva hau hmem
    have hmem1 : (a, id) ∈ (applyOp s w (.gestureOp a id .start v0)).openGestures := by
      rw [applyOp_gesture_start_openGestures]
      exact List.mem_cons_self _ _
    obtain ⟨s1, hrun, hmem2⟩ := runPhases_moves _ token w a id hva hau mvs hmem1
    have happ := runPhases_append (applyOp s w (.gestureOp a id .start v0))
      token w a id (mvs.map (fun m => (Phase.move, m))) [(Phase.stop, v1)]
      (by rw [hrun])
    rw [hrun] at happ
    simp only [runPhases, hstart, happ,
      handleGesture_stop_of_mem s1 token w a id v1 hva hau hmem2]

/-- Witness for C8: on a fresh id, start / move / move / end is accepted in
order, and a move for an unknown id is rejected. -/
theorem gesture_phase_protocol_witness :
    validAddress ["input", "mouse"] = true ∧
    authorize none .write ["input", "mouse"] = true ∧
    ((runPhases ⟨0, [], [], [], [], [], 0, []⟩ none "cli" ["input", "mouse"]
      "g1" ((Phase.start, .num 0) ::
        ([Value.num 1, Value.num 2].map (fun m => (Phase.move, m)) ++
          [(Phase.stop, .num 3)]))).2 = none) ∧
    (handleGesture ⟨0, [], [], [], [], [], 0, []⟩ none "cli" ["input", "mouse"]
      "g1" .move (.num 1) =
        (⟨0, [], [], [], [], [], 0, []⟩, some .GESTURE_SEQUENCE_ERROR)) := by
  have h := gesture_phase_protocol ⟨0, [], [], [], [], [], 0, []⟩ none "cli"
    ["input", "mouse"] "g1" (.num 1) (by decide) rfl
  exact ⟨by decide, rfl,
    h.2.2.2.2.2.2.2 (by simp) [Value.num 1, Value.num 2] (.num 0) (.num 3),
    h.2.2.2.1 (by simp)⟩

/-! ## Bundle atomicity on validation failure -/

theorem simGestures_cons (g : List (Address × String)) (op : Operation)
    (ops : List Operation) :
    simGestures g (op :: ops) = simGestures (gestureStep g op) ops := rfl

theorem validateOps_ne_none_of_exists_fail (token : Option Scope) :
    ∀ (ops : List Operation) (g : List (Address × String)),
    (∃ i : Fin ops.length,
      validateOp (simGestures g (ops.take i)) token (ops.get i) ≠ none) →
    validateOps g token ops ≠ none := by
  intro ops
  induction ops with
  | nil =>
    intro g h
    obtain ⟨i, _⟩ := h
    exact i.elim0
  | cons op ops ih =>
    intro g h
    obtain ⟨i, hi⟩ := h
    cases hop : validateOp g token op with
    | some e => simp [validateOps, hop]
    | none =>
      rcases i with ⟨iv, hiv⟩
      cases iv with
      | zero =>
        simp only [List.take_zero, simGestures, List.foldl_nil, Fin.getElem_fin,
          List.get] at hi
        exact absurd hop hi
      | succ j =>
        have hj : j < ops.length := by
          simpa using hiv
        have : validateOps (gestureStep g op) token ops ≠ none := by
          apply ih
          refine ⟨⟨j, hj⟩, ?_⟩
          simpa [simGestures_cons] using hi
        simpa [validateOps, hop] using this

/-- C1: a Bundle containing an operation that fails validation (bad address,
bad value, permission denied, or an invalid gesture phase in context) is
rejected whole: the state — AddressSpace and subscriber-delivery sequence
included — is exactly what it was before, and an error is reported. -/
theorem bundle_atomic_rejection (s : ServerState) (token : Option Scope)
    (w : String) (ops : List Operation)
    (h : ∃ i : Fin ops.length,
      validateOp (simGestures s.openGestures (ops.take i)) token (ops.get i) ≠
        none) :
    (attemptBundle s token w ops).1.space = s.space ∧
    (attemptBundle s token w ops).1.deliveries = s.deliveries ∧
    (attemptBundle s token w ops).1 = s ∧
    (attemptBundle s token w ops).2 ≠ none := by
  have hv := validateOps_ne_none_of_exists_fail token ops s.openGestures h
  cases hval : validateOps s.openGestures token ops with
  | none => exact absurd hval hv
  | some e =>
    simp [attemptBundle, hval]

/-- Witness for C1: a bundle whose only operation is denied by a read-only
token leaves the empty state untouched. -/
theorem bundle_atomic_rejection_witness :
    (attemptBundle ⟨0, [], [], [], [], [], 0, []⟩
      (some (parseScopes "read:/**")) "cli"
      [.set ["lights", "1"] (.num 1)]).1 = ⟨0, [], [], [], [], [], 0, []⟩ ∧
    (attemptBundle ⟨0, [], [], [], [], [], 0, []⟩
      (some (parseScopes "read:/**")) "cli"
      [.set ["lights", "1"] (.num 1)]).2 ≠ none := by
  have h := bundle_atomic_rejection ⟨0, [], [], [], [], [], 0, []⟩
    (some (parseScopes "read:/**")) "cli" [.set ["lights", "1"] (.num 1)]
    ⟨⟨0, by decide⟩, by decide⟩
  exact ⟨h.2.2.1, h.2.2.2⟩

/-! ## Scheduling: past rejection and immediate execution -/

theorem mem_insertPending (sb : ScheduledBundle) :
    ∀ l : List ScheduledBundle, sb ∈ insertPending sb l := by
  intro l
  induction l with
  | nil => exact List.mem_singleton.mpr rfl
  | cons x rest ih =>
    by_cases h : sb.time < x.time
    · simp [insertPending, h]
    · simp only [insertPending, if_neg h]
      exact List.mem_cons_of_mem x ih

/-- C5: a bundle submitted with an explicit time `at` before the server's
current logical time is rejected with SCHEDULE_IN_PAST and none of its
operations is applied; a bundle with a current-or-future time is enqueued,
not run immediately; immediate execution happens exactly when the time field
is omitted. -/
theorem schedule_in_past_rejected (s : ServerState) (token : Option Scope)
    (w : String) (ops : List Operation) (t : Nat) :
    (t < s.clock →
      submitBundle s token w ops (some t) = (s, some .SCHEDULE_IN_PAST)) ∧
    (s.clock ≤ t →
      (submitBundle s token w ops (some t)).1.space = s.space ∧
      (submitBundle s token w ops (some t)).1.deliveries = s.deliveries ∧
      (submitBundle s token w ops (some t)).2 = none ∧
      (⟨t, s.nextSeq, token, w, ops⟩ : ScheduledBundle) ∈
        (submitBundle s token w ops (some t)).1.pending) ∧
    (submitBundle s token w ops none = attemptBundle s token w ops) := by
  refine ⟨?_, ?_, rfl⟩
  · intro h
    simp [submitBundle, h]
  · intro h
    have h' : ¬ t < s.clock := by omega
    refine ⟨by simp [submitBundle, h'], by simp [submitBundle, h'],
      by simp [submitBundle, h'], ?_⟩
    simp only [submitBundle, if_neg h']
    exact mem_insertPending _ _

/-- Witness for C5: scheduling at logical time 3 when the clock is at 5 is
rejected with SCHEDULE_IN_PAST, leaving the state unchanged. -/
theorem schedule_in_past_rejected_witness :
    submitBundle ⟨5, [], [], [], [], [], 0, []⟩ none "cli"
      [.set ["x"] (.num 1)] (some 3) =
      (⟨5, [], [], [], [], [], 0, []⟩, some .SCHEDULE_IN_PAST) :=
  (schedule_in_past_rejected ⟨5, [], [], [], [], [], 0, []⟩ none "cli"
    [.set ["x"] (.num 1)] 3).1 (by decide)

/-! ## Late-joiner snapshot on subscribe -/

theorem snapshotBatch_eq_map_filter (sp : List (Address × Entry)) (sid : Nat)
    (p : Pattern) :
    snapshotBatch sp sid p =
      (sp.filter (fun ae => matchSegs p ae.1)).map
        (fun ae => ⟨sid, ae.1, ae.2.content, some ae.2.rev, ae.2.content.kind⟩) := by
  induction sp with
  | nil => rfl
  | cons hd tl ih =>
    by_cases h : matchSegs p hd.1 = true
    · simp [snapshotBatch, List.filter_cons, h] at ih ⊢
      exact ih
    · simp only [Bool.not_eq_true] at h
      simp [snapshotBatch, List.filter_cons, h] at ih ⊢
      exact ih

theorem spaceGet_eq_of_mem {sp : List (Address × Entry)} {a : Address}
    {e : Entry} (hmem : (a, e) ∈ sp) (hnd : (sp.map Prod.fst).Nodup) :
    spaceGet sp a = some e := by
  induction sp with
  | nil => cases hmem
  | cons hd tl ih =>
    obtain ⟨b, e'⟩ := hd
    rcases List.mem_cons.mp hmem with heq | htl
    · injection heq with h1 h2
      subst h1; subst h2
      simp [spaceGet]
    · have hnd' : b ∉ tl.map Prod.fst ∧ (tl.map Prod.fst).Nodup := by
        rw [List.map_cons, List.nodup_cons] at hnd
        exact hnd
      have hb : b ≠ a := by
        intro hba
        subst hba
        exact hnd'.1 (List.mem_map_of_mem Prod.fst htl)
      simp only [spaceGet, if_neg hb]
      exact ih htl hnd'.2

theorem applyOp_deliveries_extends (s : ServerState) (w : String)
    (op : Operation) :
    ∃ extra, (applyOp s w op).deliveries = s.deliveries ++ extra := by
  cases op <;> exact ⟨_, rfl⟩

/-- C4: a session subscribing to pattern P when exactly K stored Params match
P receives exactly K initial snapshot entries, each carrying that address's
correct current revision, all delivered before any subsequent live update. -/
theorem late_joiner_snapshot (s : ServerState) (sid : Nat) (p : Pattern)
    (f : Option SignalKind) (hnd : (s.space.map Prod.fst).Nodup) :
    (subscribe s sid p f).deliveries =
      s.deliveries ++ snapshotBatch s.space sid p ∧
    (snapshotBatch s.space sid p).length =
      (s.space.filter (fun ae => matchSegs p ae.1)).length ∧
    (∀ d ∈ snapshotBatch s.space sid p, d.sid = sid ∧
      ∃ e, spaceGet s.space d.address = some e ∧ d.rev = some e.rev ∧
        d.content = e.content) ∧
    (∀ (w : String) (op : Operation), ∃ extra,
      (applyOp (subscribe s sid p f) w op).deliveries =
        (subscribe s sid p f).deliveries ++ extra) := by
  refine ⟨rfl, ?_, ?_, fun w op => applyOp_deliveries_extends _ w op⟩
  · rw [snapshotBatch_eq_map_filter, List.length_map]
  · intro d hd
    rw [snapshotBatch_eq_map_filter] at hd
    obtain ⟨ae, haef, rfl⟩ := List.mem_map.mp hd
    obtain ⟨haemem, haematch⟩ := List.mem_filter.mp haef
    refine ⟨rfl, ae.2, ?_, rfl, rfl⟩
    exact spaceGet_eq_of_mem (by simpa using haemem) hnd

/-- Witness for C4: subscribing over a one-entry matching space delivers
exactly that entry, tagged with its revision. -/
theorem late_joiner_snapshot_witness :
    ((([(["lights", "1"], ⟨.val (.num 8), 1, "w", 0⟩)] :
        List (Address × Entry)).map Prod.fst).Nodup) ∧
    (subscribe ⟨0, [(["lights", "1"], ⟨.val (.num 8), 1, "w", 0⟩)], [], [], [],
        [], 0, []⟩ 7 [.lit "lights", .dstar] none).deliveries =
      [] ++ snapshotBatch [(["lights", "1"], ⟨.val (.num 8), 1, "w", 0⟩)] 7
        [.lit "lights", .dstar] ∧
    (snapshotBatch [(["lights", "1"], ⟨.val (.num 8), 1, "w", 0⟩)] 7
        [.lit "lights", .dstar]).length =
      (([(["lights", "1"], ⟨.val (.num 8), 1, "w", 0⟩)] :
        List (Address × Entry)).filter
          (fun ae => matchSegs [.lit "lights", .dstar] ae.1)).length := by
  have h := late_joiner_snapshot
    ⟨0, [(["lights", "1"], ⟨.val (.num 8), 1, "w", 0⟩)], [], [], [], [], 0, []⟩
    7 [.lit "lights", .dstar] none (by decide)
  exact ⟨by decide, h.1, h.2.1⟩

/-! ## Stream rate limiting -/

theorem rateDeliver_chain (minI : Nat) :
    ∀ (samples : List (Nat × Value)) (last : Option Nat),
    List.Chain' (fun x y => x.1 + minI ≤ y.1)
      (rateDeliver minI last samples).1 ∧
    (∀ x ∈ (rateDeliver minI last samples).1, ∀ l, last = some l →
      l + minI ≤ x.1) := by
  intro samples
  induction samples with
  | nil => intro last; simp [rateDeliver]
  | cons sv rest ih =>
    intro last
    obtain ⟨t, v⟩ := sv
    cases last with
    | none =>
      simp only [rateDeliver, if_true]
      obtain ⟨hch, hbd⟩ := ih (some t)
      refine ⟨?_, ?_⟩
      · rw [List.chain'_cons']
        exact ⟨fun y hy => hbd y (List.mem_of_mem_head? hy) t rfl, hch⟩
      · intro x _ l hl
        cases hl
    | some l =>
      by_cases h : l + minI ≤ t
      · simp only [rateDeliver, h, decide_True, if_true]
        obtain ⟨hch, hbd⟩ := ih (some t)
        refine ⟨?_, ?_⟩
        · rw [List.chain'_cons']
          exact ⟨fun y hy => hbd y (List.mem_of_mem_head? hy) t rfl, hch⟩
        · intro x hx l' hl'
          injection hl' with hl'
          subst hl'
          rcases List.mem_cons.mp hx with rfl | hx'
          · exact h
          · have := hbd x hx' t rfl
            omega
      · simp only [rateDeliver, h, decide_False, if_false]
        obtain ⟨hch, hbd⟩ := ih (some l)
        exact ⟨hch, fun x hx l' hl' => by
          injection hl' with hl'
          subst hl'
          exact hbd x hx l rfl⟩

theorem rateDeliver_sublists (minI : Nat) :
    ∀ (samples : List (Nat × Value)) (last : Option Nat),
    (rateDeliver minI last samples).1.Sublist samples ∧
    (rateDeliver minI last samples).2.Sublist samples := by
  intro samples
  induction samples with
  | nil => intro last; simp [rateDeliver]
  | cons sv rest ih =>
    intro last
    obtain ⟨t, v⟩ := sv
    cases last with
    | none =>
      simp only [rateDeliver, if_true]
      exact ⟨(ih (some t)).1.cons₂ _, (ih (some t)).2.cons _⟩
    | some l =>
      by_cases h : l + minI ≤ t
      · simp only [rateDeliver, h, decide_True, if_true]
        exact ⟨(ih (some t)).1.cons₂ _, (ih (some t)).2.cons _⟩
      · simp only [rateDeliver, h, decide_False, if_false]
        exact ⟨(ih (some l)).1.cons _, (ih (some l)).2.cons₂ _⟩

theorem rateDeliver_length (minI : Nat) :
    ∀ (samples : List (Nat × Value)) (last : Option Nat),
    (rateDeliver minI last samples).1.length +
      (rateDeliver minI last samples).2.length = samples.length := by
  intro samples
  induction samples with
  | nil => intro last; simp [rateDeliver]
  | cons sv rest ih =>
    intro last
    obtain ⟨t, v⟩ := sv
    cases last with
    | none =>
      simp only [rateDeliver, if_true, List.length_cons]
      have := ih (some t)
      omega
    | some l =>
      by_cases h : l + minI ≤ t
      · simp only [rateDeliver, h, decide_True, if_true, List.length_cons]
        have := ih (some t)
        omega
      · simp only [rateDeliver, h, decide_False, Bool.false_eq_true, if_false,
          List.length_cons]
        have := ih (some l)
        omega

theorem validateOp_ne_rate_limit (g : List (Address × String))
    (token : Option Scope) (op : Operation) :
    validateOp g token op ≠ some .RATE_LIMIT_EXCEEDED := by
  intro hcontra
  unfold validateOp at hcontra
  split at hcontra
  · simp at hcontra
  split at hcontra
  · simp at hcontra
  split at hcontra
  · simp at hcontra
  split at hcontra
  · split at hcontra <;> split at hcontra <;> simp at hcontra
  · simp at hcontra

theorem validateOps_ne_rate_limit (token : Option Scope) :
    ∀ (ops : List Operation) (g : List (Address × String)) (e : Error),
    validateOps g token ops = some e → e ≠ .RATE_LIMIT_EXCEEDED := by
  intro ops
  induction ops with
  | nil => intro g e h; simp [validateOps] at h
  | cons op ops ih =>
    intro g e h
    cases hop : validateOp g token op with
    | some e' =>
      rw [validateOps, hop] at h
      injection h with h
      subst h
      intro he
      subst he
      exact validateOp_ne_rate_limit g token op hop
    | none =>
      rw [validateOps, hop] at h
      exact ih _ e h

/-- C9: delivery under a max-rate never exceeds the rate — consecutive
delivered samples are at least the minimum interval apart; excess samples are
discarded, never queued or reordered (delivered and dropped lists are
sublists partitioning the input); and RATE_LIMIT_EXCEEDED is informational —
no command validation ever fails with it. -/
theorem stream_rate_limit (minI : Nat) (samples : List (Nat × Value)) :
    List.Chain' (fun x y => x.1 + minI ≤ y.1)
      (rateDeliver minI none samples).1 ∧
    (rateDeliver minI none samples).1.Sublist samples ∧
    (rateDeliver minI none samples).2.Sublist samples ∧
    (rateDeliver minI none samples).1.length +
      (rateDeliver minI none samples).2.length = samples.length ∧
    (∀ (s : ServerState) (token : Option Scope) (w : String)
      (ops : List Operation),
      (attemptBundle s token w ops).2 ≠ some .RATE_LIMIT_EXCEEDED) := by
  refine ⟨(rateDeliver_chain minI samples none).1,
    (rateDeliver_sublists minI samples none).1,
    (rateDeliver_sublists minI samples none).2,
    rateDeliver_length minI samples none, ?_⟩
  intro s token w ops hcontra
  unfold attemptBundle at hcontra
  cases hval : validateOps s.openGestures token ops with
  | none => rw [hval] at hcontra; simp at hcontra
  | some e =>
    rw [hval] at hcontra
    simp only [Option.some.injEq] at hcontra
    exact validateOps_ne_rate_limit token ops s.openGestures e hval hcontra

/-- Witness for C9: a 60 Hz burst capped at one delivery per 33 time units
keeps deliveries apart and a valid bundle never fails with
RATE_LIMIT_EXCEEDED. -/
theorem stream_rate_limit_witness :
    (attemptBundle ⟨0, [], [], [], [], [], 0, []⟩ none "cli"
      [.streamOp ["sensor"] (.num 1)]).2 ≠ some .RATE_LIMIT_EXCEEDED :=
  (stream_rate_limit 33 []).2.2.2.2 ⟨0, [], [], [], [], [], 0, []⟩ none "cli"
    [.streamOp ["sensor"] (.num 1)]

/-! ## Scheduled bundle execution -/

theorem applyOp_pending (s : ServerState) (w : String) (op : Operation) :
    (applyOp s w op).pending = s.pending := by
  cases op <;> rfl

theorem applyOp_appliedLog (s : ServerState) (w : String) (op : Operation) :
    (applyOp s w op).appliedLog = s.appliedLog := by
  cases op <;> rfl

theorem applyOps_pending (w : String) :
    ∀ (ops : List Operation) (s : ServerState),
    (applyOps s w ops).pending = s.pending := by
  intro ops
  induction ops with
  | nil => intro s; rfl
  | cons op ops ih =>
    intro s
    show (applyOps (applyOp s w op) w ops).pending = s.pending
    rw [ih, applyOp_pending]

theorem applyOps_appliedLog (w : String) :
    ∀ (ops : List Operation) (s : ServerState),
    (applyOps s w ops).appliedLog = s.appliedLog := by
  intro ops
  induction ops with
  | nil => intro s; rfl
  | cons op ops ih =>
    intro s
    show (applyOps (applyOp s w op) w ops).appliedLog = s.appliedLog
    rw [ih, applyOp_appliedLog]

theorem attemptBundle_pending (s : ServerState) (token : Option Scope)
    (w : String) (ops : List Operation) :
    (attemptBundle s token w ops).1.pending = s.pending := by
  unfold attemptBundle
  cases validateOps s.openGestures token ops <;> simp [applyOps_pending]

theorem attemptBundle_appliedLog (s : ServerState) (token : Option Scope)
    (w : String) (ops : List Operation) :
    (attemptBundle s token w ops).1.appliedLog = s.appliedLog := by
  unfold attemptBundle
  cases validateOps s.openGestures token ops <;> simp [applyOps_appliedLog]

theorem runScheduled_pending :
    ∀ (l : List ScheduledBundle) (s : ServerState),
    (runScheduled s l).pending = s.pending := by
  intro l
  induction l with
  | nil => intro s; rfl
  | cons sb rest ih =>
    intro s
    show (runScheduled _ rest).pending = s.pending
    rw [ih]
    exact attemptBundle_pending s sb.token sb.writer sb.ops

theorem runScheduled_appliedLog :
    ∀ (l : List ScheduledBundle) (s : ServerState),
    (runScheduled s l).appliedLog =
      s.appliedLog ++ l.map ScheduledBundle.seq := by
  intro l
  induction l with
  | nil => intro s; simp [runScheduled]
  | cons sb rest ih =>
    intro s
    show (runScheduled _ rest).appliedLog = _
    rw [ih]
    simp [attemptBundle_appliedLog]

theorem dropWhile_head_not (p : α → Bool) :
    ∀ (l : List α) (x : α) (xs : List α), l.dropWhile p = x :: xs →
    p x = false := by
  intro l
  induction l with
  | nil => intro x xs h; cases h
  | cons a l ih =>
    intro x xs h
    rw [List.dropWhile_cons] at h
    by_cases hp : p a = true
    · rw [if_pos hp] at h
      exact ih x xs h
    · rw [if_neg hp] at h
      injection h with h1 _
      subst h1
      exact Bool.not_eq_true _ ▸ hp

theorem mem_dropWhile_of_not_due {sb : ScheduledBundle} {t : Nat}
    {l : List ScheduledBundle} (hmem : sb ∈ l) (h : ¬ sb.time ≤ t) :
    sb ∈ l.dropWhile (fun x => decide (x.time ≤ t)) := by
  have hsplit := List.takeWhile_append_dropWhile
    (fun x : ScheduledBundle => decide (x.time ≤ t)) l
  rcases List.mem_append.mp (hsplit ▸ hmem) with h1 | h2
  · have hx := List.mem_takeWhile_imp h1
    simp only [decide_eq_true_eq] at hx
    exact absurd hx h
  · exact h2

theorem mem_takeWhile_of_due {sb : ScheduledBundle} {t : Nat}
    {l : List ScheduledBundle} (hp : List.Pairwise schedBefore l)
    (hmem : sb ∈ l) (h : sb.time ≤ t) :
    sb ∈ l.takeWhile (fun x => decide (x.time ≤ t)) := by
  have hsplit := List.takeWhile_append_dropWhile
    (fun x : ScheduledBundle => decide (x.time ≤ t)) l
  rcases List.mem_append.mp (hsplit ▸ hmem) with h1 | h2
  · exact h1
  · exfalso
    cases hd : l.dropWhile (fun x => decide (x.time ≤ t)) with
    | nil => rw [hd] at h2; cases h2
    | cons x xs =>
      have hx : ¬ x.time ≤ t := by
        have := dropWhile_head_not _ l x xs hd
        simpa using this
      have hpd : List.Pairwise schedBefore (x :: xs) := by
        rw [← hd]
        exact hp.sublist (List.dropWhile_sublist _)
      rw [hd] at h2
      rcases List.mem_cons.mp h2 with rfl | h3
      · exact hx h
      · have := (List.pairwise_cons.mp hpd).1 sb h3
        rcases this with h4 | ⟨h4, _⟩ <;> omega

theorem mem_insertPending_iff (y nb : ScheduledBundle) :
    ∀ l : List ScheduledBundle, y ∈ insertPending nb l ↔ y = nb ∨ y ∈ l := by
  intro l
  induction l with
  | nil => simp [insertPending]
  | cons x rest ih =>
    by_cases h : nb.time < x.time
    · simp [insertPending, h, List.mem_cons]
    · simp [insertPending, h, List.mem_cons, ih]
      tauto

theorem insertPending_pairwise :
    ∀ (nb : ScheduledBundle) (l : List ScheduledBundle),
    (∀ x ∈ l, x.seq < nb.seq) → List.Pairwise schedBefore l →
    List.Pairwise schedBefore (insertPending nb l) := by
  intro nb l
  induction l with
  | nil => intro _ _; exact List.pairwise_singleton _ _
  | cons x rest ih =>
    intro hseq hp
    rw [List.pairwise_cons] at hp
    obtain ⟨hx, hrest⟩ := hp
    by_cases h : nb.time < x.time
    · simp only [insertPending, if_pos h]
      rw [List.pairwise_cons]
      refine ⟨?_, List.pairwise_cons.mpr ⟨hx, hrest⟩⟩
      intro y hy
      rcases List.mem_cons.mp hy with rfl | hy'
      · exact Or.inl h
      · rcases hx y hy' with h1 | ⟨h1, _⟩ <;> exact Or.inl (by omega)
    · simp only [insertPending, if_neg h]
      rw [List.pairwise_cons]
      constructor
      · intro y hy
        rcases (mem_insertPending_iff y nb rest).mp hy with rfl | hy'
        · have hxseq := hseq x (List.mem_cons_self x rest)
          by_cases ht : x.time < y.time
          · exact Or.inl ht
          · exact Or.inr ⟨by omega, hxseq⟩
        · exact hx y hy'
      · exact ih (fun z hz => hseq z (List.mem_cons_of_mem x hz)) hrest

/-- C6: a bundle scheduled at future logical time T is not applied while the
clock is below T (it stays pending, unapplied), is applied exactly once when
the clock reaches T, and due bundles are applied in scheduled-time order with
FIFO arrival order among equal timestamps (the queue insert keeps the strict
(time, arrival) order when the new arrival sequence is largest). -/
theorem scheduled_bundle_execution (s : ServerState) (sb : ScheduledBundle)
    (t : Nat) (hsorted : List.Pairwise schedBefore s.pending)
    (hnodup : (s.pending.map ScheduledBundle.seq).Nodup)
    (hlog : sb.seq ∉ s.appliedLog) (hmem : sb ∈ s.pending) :
    (t < sb.time →
      sb ∈ (advanceTo t s).pending ∧
      (advanceTo t s).appliedLog.count sb.seq = 0) ∧
    (sb.time ≤ t →
      sb ∉ (advanceTo t s).pending ∧
      (advanceTo t s).appliedLog.count sb.seq = 1) ∧
    List.Pairwise schedBefore
      (s.pending.takeWhile (fun x => decide (x.time ≤ t))) ∧
    (advanceTo t s).appliedLog =
      s.appliedLog ++
        (s.pending.takeWhile (fun x => decide (x.time ≤ t))).map
          ScheduledBundle.seq ∧
    (∀ (nb : ScheduledBundle) (l : List ScheduledBundle),
      (∀ x ∈ l, x.seq < nb.seq) → List.Pairwise schedBefore l →
      List.Pairwise schedBefore (insertPending nb l)) := by
  have hpend : (advanceTo t s).pending =
      s.pending.dropWhile (fun x => decide (x.time ≤ t)) := by
    unfold advanceTo
    rw [runScheduled_pending]
  have hlogeq : (advanceTo t s).appliedLog =
      s.appliedLog ++
        (s.pending.takeWhile (fun x => decide (x.time ≤ t))).map
          ScheduledBundle.seq := by
    unfold advanceTo
    rw [runScheduled_appliedLog]
  have hmapsplit : s.pending.map ScheduledBundle.seq =
      (s.pending.takeWhile (fun x => decide (x.time ≤ t))).map
        ScheduledBundle.seq ++
      (s.pending.dropWhile (fun x => decide (x.time ≤ t))).map
        ScheduledBundle.seq := by
    rw [← List.map_append, List.takeWhile_append_dropWhile]
  have hdisj : ((s.pending.takeWhile (fun x => decide (x.time ≤ t))).map
      ScheduledBundle.seq).Disjoint
      ((s.pending.dropWhile (fun x => decide (x.time ≤ t))).map
        ScheduledBundle.seq) := by
    rw [hmapsplit] at hnodup
    exact (List.nodup_append.mp hnodup).2.2
  have hcount0 : s.appliedLog.count sb.seq = 0 := List.count_eq_zero.mpr hlog
  refine ⟨?_, ?_, hsorted.sublist (List.takeWhile_sublist _), hlogeq,
    insertPending_pairwise⟩
  · intro hlt
    have hnot : ¬ sb.time ≤ t := by omega
    have hrest := mem_dropWhile_of_not_due hmem hnot
    refine ⟨hpend ▸ hrest, ?_⟩
    rw [hlogeq, List.count_append, hcount0]
    have : sb.seq ∉ (s.pending.takeWhile (fun x => decide (x.time ≤ t))).map
        ScheduledBundle.seq := by
      intro hc
      exact hdisj hc (List.mem_map_of_mem ScheduledBundle.seq hrest)
    rw [List.count_eq_zero.mpr this]
  · intro hle
    have hdue := mem_takeWhile_of_due hsorted hmem hle
    have hseqdue : sb.seq ∈
        (s.pending.takeWhile (fun x => decide (x.time ≤ t))).map
          ScheduledBundle.seq := List.mem_map_of_mem ScheduledBundle.seq hdue
    constructor
    · rw [hpend]
      intro hc
      exact hdisj hseqdue (List.mem_map_of_mem ScheduledBundle.seq hc)
    · rw [hlogeq, List.count_append, hcount0]
      have hnd : ((s.pending.takeWhile (fun x => decide (x.time ≤ t))).map
          ScheduledBundle.seq).Nodup := by
        rw [hmapsplit] at hnodup
        exact (List.nodup_append.mp hnodup).1
      rw [List.count_eq_one_of_mem hnd hseqdue]

/-- Witness for C6: two bundles both scheduled at time 10 (arrival order 0
then 1) are untouched while the clock is at 5 and both applied exactly once
when it reaches 12. -/
theorem scheduled_bundle_execution_witness :
    ((⟨10, 0, none, "w", []⟩ : ScheduledBundle) ∈
      (advanceTo 5 ⟨0, [], [], [], [],
        [⟨10, 0, none, "w", []⟩, ⟨10, 1, none, "w", []⟩], 2, []⟩).pending ∧
     (advanceTo 5 ⟨0, [], [], [], [],
        [⟨10, 0, none, "w", []⟩, ⟨10, 1, none, "w", []⟩], 2, []⟩).appliedLog.count
          0 = 0) ∧
    ((⟨10, 0, none, "w", []⟩ : ScheduledBundle) ∉
      (advanceTo 12 ⟨0, [], [], [], [],
        [⟨10, 0, none, "w", []⟩, ⟨10, 1, none, "w", []⟩], 2, []⟩).pending ∧
     (advanceTo 12 ⟨0, [], [], [], [],
        [⟨10, 0, none, "w", []⟩, ⟨10, 1, none, "w", []⟩], 2, []⟩).appliedLog.count
          0 = 1) := by
  have hsorted : List.Pairwise schedBefore
      [(⟨10, 0, none, "w", []⟩ : ScheduledBundle), ⟨10, 1, none, "w", []⟩] := by
    refine List.pairwise_cons.mpr ⟨?_, List.pairwise_singleton _ _⟩
    intro y hy
    rcases List.mem_singleton.mp hy with rfl
    exact Or.inr ⟨rfl, Nat.zero_lt_one⟩
  have h5 := scheduled_bundle_execution
    ⟨0, [], [], [], [], [⟨10, 0, none, "w", []⟩, ⟨10, 1, none, "w", []⟩], 2, []⟩
    ⟨10, 0, none, "w", []⟩ 5 hsorted (by decide) (by simp)
    (List.mem_cons_self _ _)
  have h12 := scheduled_bundle_execution
    ⟨0, [], [], [], [], [⟨10, 0, none, "w", []⟩, ⟨10, 1, none, "w", []⟩], 2, []⟩
    ⟨10, 0, none, "w", []⟩ 12 hsorted (by decide) (by simp)
    (List.mem_cons_self _ _)
  exact ⟨h5.1 (by decide), h12.2.1 (by decide)⟩

end Clasp
